import Mathlib

/-!
Verification of the image-to-mp4-and-gif converter (`src/app.py`).

The program loads a numbered sequence of PNG frames, normalizes them, and
renders each requested playback speed to an MP4 (with an encode-FPS /
repeat-factor / loop-count schedule) and to an infinitely looping GIF.

This file shallowly embeds the relevant parts of `app.py`:
* the timing scheduler inside `create_mp4` (lines 85-96);
* the frame emission loop of `create_mp4` (lines 104-114), as the list of
  frames appended to the writer;
* `create_gif` (lines 118-123), as the record of the `mimsave` call;
* `process_images` (lines 15-49), with the filesystem presented as an
  optional directory listing and each PNG file presented with its decoded
  pixel dimensions;
* the abort path of `main` (lines 156-166).

Machine arithmetic: Python integers are unbounded, so `ℕ`/`ℤ` are exact.
The float divisions of `create_mp4` (lines 95-96) are modelled by `ℚ`.
The rational model agrees with the float computation at every concrete
scenario proved below (each is exactly representable in binary floating
point), and the general duration bound proved for C5 has a half-unit
slack over the worst rational rounding error, so it survives the float
pipeline. No theorem quantifies over program inputs by the exact-rational
value of a rounding knife edge: the float divisions can perturb an
exactly-halfway ratio (at frameCount 2, requestedFPS 49, targetDuration 1
the exact ratio is 24.5, but the program computes
`1 / (2/49) = 24.500000000000004`, which rounds to the odd 25).
-/

/-- `app.py` line 86: the LinkedIn encoder minimum frame rate, the literal
`10` in `encode_fps = 24 if view_fps < 10 else view_fps`. -/
def encoderMinFPS : ℕ := 10

/-- `app.py` line 86: the fixed fallback rate, the literal `24`. -/
def fixedFallbackFPS : ℕ := 24

/-- `app.py` line 86: `encode_fps = 24 if view_fps < 10 else view_fps`. -/
def encode_fps (view_fps : ℕ) : ℕ :=
  if view_fps < encoderMinFPS then fixedFallbackFPS else view_fps

/-- `app.py` lines 89-91: `repeat_factor = encode_fps // view_fps`, plus one
when `encode_fps % view_fps` is nonzero. -/
def repeat_factor (view_fps : ℕ) : ℕ :=
  let q := encode_fps view_fps / view_fps
  if encode_fps view_fps % view_fps ≠ 0 then q + 1 else q

/-- `app.py` line 95: `sequence_duration = num_frames / view_fps`
(Python float division, modelled on `ℚ`). -/
def sequence_duration (num_frames view_fps : ℕ) : ℚ :=
  (num_frames : ℚ) / (view_fps : ℚ)

/-- Python's built-in `round` (used at `app.py` line 96): round half to even.
On a rational, take the floor; if the fractional part is below a half keep
the floor, above a half go up, and at exactly a half pick the even
neighbour. -/
def pyRound (q : ℚ) : ℤ :=
  if q - ⌊q⌋ < 1/2 then ⌊q⌋
  else if 1/2 < q - ⌊q⌋ then ⌊q⌋ + 1
  else if 2 ∣ ⌊q⌋ then ⌊q⌋ else ⌊q⌋ + 1

/-- `app.py` line 96: `num_loops = max(1, round(target_duration / sequence_duration))`. -/
def num_loops (num_frames view_fps target_duration : ℕ) : ℤ :=
  max 1 (pyRound ((target_duration : ℚ) / sequence_duration num_frames view_fps))

/-- C1: for every requestedFPS strictly below `encoderMinFPS = 10`, the
scheduler sets `encode_fps` to the fixed fallback rate 24 and
`repeat_factor` to `⌈24 / requestedFPS⌉`; in particular requestedFPS = 2
yields `encode_fps = 24` and `repeat_factor = 12`. -/
theorem scheduler_below_min_fallback (v : ℕ) (hv : 0 < v) (hlt : v < encoderMinFPS) :
    encode_fps v = fixedFallbackFPS ∧
    (repeat_factor v : ℤ) = ⌈(fixedFallbackFPS : ℚ) / (v : ℚ)⌉ ∧
    encode_fps 2 = 24 ∧ repeat_factor 2 = 12 := by
  have h10 : encoderMinFPS = 10 := rfl
  rw [h10] at hlt
  refine ⟨?_, ?_, by decide, by decide⟩
  · simp [encode_fps, h10, hlt]
  · interval_cases v <;>
      norm_num [repeat_factor, encode_fps, encoderMinFPS, fixedFallbackFPS] <;>
      rw [eq_comm, Int.ceil_eq_iff] <;> norm_num

/-- Witness for C1 at requestedFPS = 2. -/
theorem scheduler_below_min_fallback_witness :
    encode_fps 2 = fixedFallbackFPS ∧
    (repeat_factor 2 : ℤ) = ⌈(fixedFallbackFPS : ℚ) / (2 : ℚ)⌉ :=
  ⟨(scheduler_below_min_fallback 2 (by decide) (by decide)).1,
   (scheduler_below_min_fallback 2 (by decide) (by decide)).2.1⟩

/-- C2: for every requestedFPS at or above `encoderMinFPS = 10`, the
scheduler passes through: `encode_fps` equals the requested rate and
`repeat_factor` equals 1; in particular requestedFPS = 24 yields
`encode_fps = 24` and `repeat_factor = 1`. -/
theorem scheduler_at_or_above_min_passthrough (v : ℕ) (hge : encoderMinFPS ≤ v) :
    encode_fps v = v ∧ repeat_factor v = 1 ∧
    encode_fps 24 = 24 ∧ repeat_factor 24 = 1 := by
  have h10 : encoderMinFPS = 10 := rfl
  rw [h10] at hge
  have hv : 0 < v := by omega
  have he : encode_fps v = v := by
    simp [encode_fps, encoderMinFPS, Nat.not_lt.mpr hge]
  refine ⟨he, ?_, by decide, by decide⟩
  simp [repeat_factor, he, Nat.mod_self, Nat.div_self hv]

/-- Witness for C2 at requestedFPS = 24. -/
theorem scheduler_at_or_above_min_passthrough_witness :
    encode_fps 24 = 24 ∧ repeat_factor 24 = 1 :=
  ⟨(scheduler_at_or_above_min_passthrough 24 (by decide)).1,
   (scheduler_at_or_above_min_passthrough 24 (by decide)).2.1⟩

/-- C3: the scheduler computes
`num_loops = max 1 (round (target_duration / (num_frames / view_fps)))`,
so the loop count is always at least 1, even when one full pass overshoots
the target duration. -/
theorem num_loops_formula_and_ge_one (nf v t : ℕ) :
    num_loops nf v t =
      max 1 (pyRound ((t : ℚ) / ((nf : ℚ) / (v : ℚ)))) ∧
    1 ≤ num_loops nf v t := by
  exact ⟨rfl, le_max_left 1 _⟩

/-! ### Basic facts about Python's round -/

theorem abs_pyRound_sub_le (q : ℚ) : |(pyRound q : ℚ) - q| ≤ 1/2 := by
  have hf : (⌊q⌋ : ℚ) ≤ q := Int.floor_le q
  have hf1 : q < ⌊q⌋ + 1 := Int.lt_floor_add_one q
  unfold pyRound
  split_ifs with h1 h2 h3 <;> rw [abs_le] <;> push_cast <;>
    constructor <;> linarith

theorem pyRound_even_of_half {q : ℚ} (h : q - ⌊q⌋ = 1/2) : Even (pyRound q) := by
  unfold pyRound
  rw [h]
  norm_num
  split_ifs with h2
  · exact even_iff_two_dvd.mpr h2
  · rcases Int.even_or_odd ⌊q⌋ with he | ho
    · exact absurd (even_iff_two_dvd.mp he) h2
    · exact ho.add_one

theorem floor_le_pyRound (q : ℚ) : ⌊q⌋ ≤ pyRound q := by
  unfold pyRound
  split_ifs <;> omega

/-! ### The data model of the loader and the renderers

A source file on disk is its filename together with the pixel dimensions
the PNG decodes to. A loaded (in-memory) frame records the file it was
opened from, its dimensions after any resize, the PIL mode after
`convert("RGBA")`, and whether `resize(..., LANCZOS)` was applied. -/

structure SrcImage where
  name : String
  width : ℕ
  height : ℕ
deriving DecidableEq, Repr

structure Img where
  srcName : String
  width : ℕ
  height : ℕ
  mode : String
  resampledLanczos : Bool
deriving DecidableEq, Repr

/-- `app.py` line 32: `Image.open(filepath).convert("RGBA")` — decoding
keeps the file's dimensions and normalizes the mode. -/
def convertRGBA (e : SrcImage) : Img :=
  ⟨e.name, e.width, e.height, "RGBA", false⟩

/-- `app.py` line 39: `img.resize(target_size, Image.Resampling.LANCZOS)`. -/
def resizeLanczos (i : Img) (w h : ℕ) : Img :=
  ⟨i.srcName, w, h, i.mode, true⟩

/-- `app.py` lines 104-114: the frames appended to the MP4 writer —
`num_loops` passes over `images`, each frame repeated `repeat_factor`
times. -/
def create_mp4_frames (images : List Img) (view_fps target_duration : ℕ) :
    List Img :=
  ((List.range (num_loops images.length view_fps target_duration).toNat).map
    (fun _ => ((images.map
      (fun img => List.replicate (repeat_factor view_fps) img)).flatten))).flatten

/-- `app.py` lines 118-123 (`create_gif`): the single `imageio.mimsave`
call, recorded as the frame list, the per-frame duration and the loop
flag it receives. -/
structure GifSave where
  frames : List Img
  frame_duration : ℚ
  loop : ℕ
deriving DecidableEq, Repr

/-- `app.py` lines 118-122: `frame_duration = 1 / fps;
mimsave(output_path, images, duration=frame_duration, loop=0)`. -/
def create_gif (images : List Img) (fps : ℕ) : GifSave :=
  ⟨images, 1 / (fps : ℚ), 0⟩

theorem length_flatten_map_replicate (rf : ℕ) (l : List Img) :
    ((l.map (fun img => List.replicate rf img)).flatten).length =
      l.length * rf := by
  induction l with
  | nil => simp
  | cons a l ih => simp [ih, Nat.succ_mul]; omega

/-- C4: the MP4 renderer appends exactly
`loopCount * frameCount * repeatFactor` frames to the writer. -/
theorem create_mp4_frame_count (images : List Img) (v t : ℕ) :
    (create_mp4_frames images v t).length =
      (num_loops images.length v t).toNat * images.length * repeat_factor v := by
  unfold create_mp4_frames
  rw [List.map_const', List.length_range]
  induction (num_loops images.length v t).toNat with
  | zero => simp
  | succ n ih =>
      rw [List.replicate_succ, List.flatten_cons, List.length_append, ih,
        length_flatten_map_replicate]
      ring

/-- C9: the GIF artifact is one pass of the original sequence (no
loop-count or repeat-factor duplication), with per-frame display duration
`1 / requestedFPS` and infinite repeat (`loop = 0`). -/
theorem create_gif_single_pass (images : List Img) (fps : ℕ) :
    (create_gif images fps).frames = images ∧
    (create_gif images fps).frame_duration = 1 / (fps : ℚ) ∧
    (create_gif images fps).loop = 0 :=
  ⟨rfl, rfl, rfl⟩

/-- C10 counterexample: at frameCount 10, requestedFPS 1,
targetDuration 5 the ratio is exactly 1/2 (halfway between 0 and 1, with
even neighbour 0), yet the loop count is 1 — the `max(1, ·)` clamp keeps
the halfway-even value from reaching `num_loops`. -/
theorem loop_round_half_even_cex :
    ((5 : ℚ) / sequence_duration 10 1) - ⌊(5 : ℚ) / sequence_duration 10 1⌋ = 1/2 ∧
    ¬ Even (num_loops 10 1 5) := by
  constructor
  · norm_num [sequence_duration]
  · norm_num [num_loops, sequence_duration, pyRound, Int.even_iff]

/-- C10 (amended): the rounding convention at `app.py` line 96 is Python's
round-half-to-even: whenever the value handed to `round` is exactly
halfway between two integers, `round` picks the even neighbour, and
`num_loops` is the max of 1 and the rounded value. In the two float-exact
scenarios: a computed ratio of 2.5 (frameCount 2, requestedFPS 1,
targetDuration 5) gives loop count 2, and a computed ratio of 7.5
(frameCount 12, requestedFPS 3, targetDuration 30) gives loop count 8.
The even choice applies to the value the program computes, not to the
exact ratio of the inputs: the float divisions at lines 95-96 can move an
exactly-halfway ratio off the knife edge (frameCount 2, requestedFPS 49,
targetDuration 1 computes `1 / (2/49) = 24.500000000000004`, which rounds
to the odd 25). -/
theorem loop_round_half_even (q : ℚ) (h : q - ⌊q⌋ = 1/2) :
    Even (pyRound q) ∧
    (∀ nf v t : ℕ, num_loops nf v t =
      max 1 (pyRound ((t : ℚ) / sequence_duration nf v))) ∧
    num_loops 2 1 5 = 2 ∧ num_loops 12 3 30 = 8 := by
  refine ⟨pyRound_even_of_half h, fun nf v t => rfl, ?_, ?_⟩
  · norm_num [num_loops, sequence_duration, pyRound]
  · norm_num [num_loops, sequence_duration, pyRound]

theorem abs_max_one_pyRound_sub_le {q : ℚ} (hq : 0 < q) :
    |((max 1 (pyRound q) : ℤ) : ℚ) - q| ≤ 1 := by
  have h := abs_pyRound_sub_le q
  rw [abs_le] at h ⊢
  rcases le_or_lt 1 (pyRound q) with hge | hlt
  · rw [max_eq_right hge]
    exact ⟨by linarith [h.1], by linarith [h.2]⟩
  · have h1 : max 1 (pyRound q) = 1 := max_eq_left (by omega)
    have h0 : (pyRound q : ℚ) ≤ 0 := by exact_mod_cast (by omega : pyRound q ≤ 0)
    rw [h1]
    push_cast
    exact ⟨by linarith [h.1], by linarith [h.2]⟩

/-- C5 counterexample: at requestedFPS 7 (so `encode_fps = 24`,
`repeat_factor = 4`, and an encoded pass lasts longer than a perceived
pass), 42 frames and a 600-second target give 100 loops and an encoded
duration of 700 s — off the target by 100 s, far more than the 7-second
duration of one loop pass. -/
theorem encoded_duration_bound_cex :
    ¬ (|((num_loops 42 7 600 : ℚ) * 42 * (repeat_factor 7 : ℚ)) /
          (encode_fps 7 : ℚ) - 600| ≤
        ((42 : ℚ) * (repeat_factor 7 : ℚ)) / (encode_fps 7 : ℚ)) := by
  norm_num [num_loops, sequence_duration, pyRound, repeat_factor,
    encode_fps, encoderMinFPS, fixedFallbackFPS, abs_le]

/-- C5 (amended): whenever the requested rate divides the encode rate
evenly (`repeat_factor * requestedFPS = encodeFPS`, which holds for all
pass-through rates and for fallback rates 1, 2, 3, 4, 6, 8), the total
encoded duration `loopCount * frameCount * repeatFactor / encodeFPS`
differs from the target duration by at most the duration of one loop
pass. -/
theorem encoded_duration_bound (nf v t : ℕ)
    (hnf : 0 < nf) (hv : 0 < v) (ht : 0 < t)
    (hdiv : repeat_factor v * v = encode_fps v) :
    |((num_loops nf v t : ℚ) * nf * (repeat_factor v : ℚ)) /
        (encode_fps v : ℚ) - t| ≤
      ((nf : ℚ) * (repeat_factor v : ℚ)) / (encode_fps v : ℚ) := by
  have hepos : 0 < encode_fps v := by
    unfold encode_fps encoderMinFPS fixedFallbackFPS
    split_ifs <;> omega
  have hvQ : (0:ℚ) < v := by exact_mod_cast hv
  have hnfQ : (0:ℚ) < nf := by exact_mod_cast hnf
  have htQ : (0:ℚ) < t := by exact_mod_cast ht
  have heQ : (0:ℚ) < encode_fps v := by exact_mod_cast hepos
  have hdivQ : (repeat_factor v : ℚ) * v = encode_fps v := by
    exact_mod_cast hdiv
  have hs : 0 < sequence_duration nf v := div_pos hnfQ hvQ
  have hrf0 : (repeat_factor v : ℚ) ≠ 0 := by
    intro h0
    rw [h0, zero_mul] at hdivQ
    exact absurd hdivQ.symm heQ.ne'
  have key : ((nf : ℚ) * (repeat_factor v : ℚ)) / (encode_fps v : ℚ) =
      sequence_duration nf v := by
    rw [← hdivQ]
    unfold sequence_duration
    field_simp
    ring
  have hq : 0 < (t : ℚ) / sequence_duration nf v := div_pos htQ hs
  have hL : (num_loops nf v t : ℚ) =
      ((max 1 (pyRound ((t : ℚ) / sequence_duration nf v)) : ℤ) : ℚ) := rfl
  have ht' : (t : ℚ) = ((t : ℚ) / sequence_duration nf v) *
      sequence_duration nf v := by
    field_simp
  calc |((num_loops nf v t : ℚ) * nf * (repeat_factor v : ℚ)) /
          (encode_fps v : ℚ) - t|
      = |(num_loops nf v t : ℚ) *
          (((nf : ℚ) * (repeat_factor v : ℚ)) / (encode_fps v : ℚ)) - t| := by
        rw [mul_assoc, mul_div_assoc]
    _ = |(num_loops nf v t : ℚ) * sequence_duration nf v -
          ((t : ℚ) / sequence_duration nf v) * sequence_duration nf v| := by
        rw [key, ← ht']
    _ = |(num_loops nf v t : ℚ) - (t : ℚ) / sequence_duration nf v| *
          sequence_duration nf v := by
        rw [← sub_mul, abs_mul, abs_of_pos hs]
    _ ≤ 1 * sequence_duration nf v := by
        refine mul_le_mul_of_nonneg_right ?_ hs.le
        rw [hL]
        exact abs_max_one_pyRound_sub_le hq
    _ = sequence_duration nf v := one_mul _
    _ = ((nf : ℚ) * (repeat_factor v : ℚ)) / (encode_fps v : ℚ) := key.symm

/-- Witness for the amended C5 at requestedFPS 2, 4 frames,
7-second target: the encoded duration is 8 s, within one pass (2 s) of
the target. -/
theorem encoded_duration_bound_witness :
    |((num_loops 4 2 7 : ℚ) * 4 * (repeat_factor 2 : ℚ)) /
        (encode_fps 2 : ℚ) - 7| ≤
      ((4 : ℚ) * (repeat_factor 2 : ℚ)) / (encode_fps 2 : ℚ) :=
  encoded_duration_bound 4 2 7 (by decide) (by decide) (by decide) (by decide)

/-- Witness for the amended C10 at the halfway value 15/2 (the computed
ratio of the frameCount 12, requestedFPS 3, targetDuration 30 scenario,
where the float divisions are exact). -/
theorem loop_round_half_even_witness :
    Even (pyRound ((15 : ℚ) / 2)) ∧ num_loops 12 3 30 = 8 := by
  have h := loop_round_half_even ((15 : ℚ) / 2) (by norm_num)
  exact ⟨h.1, h.2.2.2⟩

/-! ### The frame loader (`process_images`, `app.py` lines 15-49)

The filesystem is presented to the embedding as `Option (List SrcImage)`:
`none` is a missing `images` directory (`FileNotFoundError` at line 44),
`some entries` is the directory listing with each file's decoded pixel
dimensions. -/

/-- `app.py` line 18: `f.endswith('.png')`. -/
def endsWithPng (s : String) : Bool :=
  match s.toList.reverse with
  | 'g' :: 'n' :: 'p' :: '.' :: _ => true
  | _ => false

def takeDigits : List Char → List Char
  | [] => []
  | c :: cs => if c.isDigit then c :: takeDigits cs else []

/-- The first maximal run of digits in a character list, if any —
`re.search(r'(\d+)', f)` at `app.py` line 24. -/
def findDigitRun : List Char → Option (List Char)
  | [] => none
  | c :: cs => if c.isDigit then some (c :: takeDigits cs) else findDigitRun cs

def digitsToNat (ds : List Char) : ℕ :=
  ds.foldl (fun acc c => 10 * acc + (c.toNat - 48)) 0

/-- `int(re.search(r'(\d+)', f).group())` at `app.py` line 24; `none` when
the filename has no digits (there `.group()` raises `AttributeError`,
caught by the bare `except` at line 47). -/
def firstDigitRun (s : String) : Option ℕ :=
  (findDigitRun s.toList).map digitsToNat

def numKey (s : String) : ℕ := (firstDigitRun s).getD 0

/-- The sort relation of `files.sort(key=...)` at `app.py` line 24. -/
def byNumKey (a b : SrcImage) : Prop := numKey a.name ≤ numKey b.name

instance : DecidableRel byNumKey := fun _ _ => Nat.decLe _ _

instance : IsTotal SrcImage byNumKey := ⟨fun _ _ => Nat.le_total _ _⟩

instance : IsTrans SrcImage byNumKey := ⟨fun _ _ _ => Nat.le_trans⟩

/-- `app.py` lines 26-43: the load loop. The first file (`i == 0`) fixes
`target_size`; every later file whose size differs is resized to it with
LANCZOS resampling; every file is opened with `convert("RGBA")`. -/
def loadLoop (sorted : List SrcImage) : List Img :=
  match sorted with
  | [] => []
  | first :: rest =>
    let img0 := convertRGBA first
    img0 :: rest.map (fun e =>
      let img := convertRGBA e
      if (img.width, img.height) ≠ (img0.width, img0.height) then
        resizeLanczos img img0.width img0.height
      else img)

/-- `app.py` lines 15-49 (`process_images`): filter to `.png`, fail on an
empty list, sort by the numeric token (failing if any filename lacks
digits), then load and normalize. Any failure returns `None`. -/
def process_images (dir : Option (List SrcImage)) : Option (List Img) :=
  match dir with
  | none => none
  | some entries =>
    let files := entries.filter (fun e => endsWithPng e.name)
    if files.isEmpty then
      none
    else if files.all (fun e => (firstDigitRun e.name).isSome) then
      some (loadLoop (List.insertionSort byNumKey files))
    else
      none

/-- Whether `main` (`app.py` lines 156-166) reaches the
`os.makedirs` calls: `if not processed_images` aborts on `None` (and on
an empty list, which `process_images` never returns). -/
inductive RunOutcome where
  | abortBeforeOutput : RunOutcome
  | outputsCreated : List Img → RunOutcome
deriving DecidableEq, Repr

def main_run (dir : Option (List SrcImage)) : RunOutcome :=
  match process_images dir with
  | none => RunOutcome.abortBeforeOutput
  | some imgs =>
      if imgs.isEmpty then RunOutcome.abortBeforeOutput
      else RunOutcome.outputsCreated imgs

theorem loadLoop_map_srcName (l : List SrcImage) :
    (loadLoop l).map (fun i => i.srcName) = l.map (fun e => e.name) := by
  match l with
  | [] => rfl
  | first :: rest =>
      simp only [loadLoop, List.map_cons, List.map_map, List.cons.injEq]
      refine ⟨rfl, ?_⟩
      apply List.map_congr_left
      intro e _
      simp only [Function.comp_apply]
      split <;> rfl

theorem loadLoop_length (l : List SrcImage) :
    (loadLoop l).length = l.length := by
  match l with
  | [] => rfl
  | first :: rest => simp [loadLoop]

theorem loadLoop_mode (l : List SrcImage) :
    ∀ i ∈ loadLoop l, i.mode = "RGBA" := by
  match l with
  | [] => simp [loadLoop]
  | first :: rest =>
      intro i hi
      simp only [loadLoop, List.mem_cons, List.mem_map] at hi
      rcases hi with h | ⟨e, _, he⟩
      · subst h; rfl
      · rw [← he]; split <;> rfl

theorem loadLoop_dims (f : SrcImage) (rest : List SrcImage) :
    ∀ i ∈ loadLoop (f :: rest), i.width = f.width ∧ i.height = f.height := by
  intro i hi
  simp only [loadLoop, List.mem_cons, List.mem_map] at hi
  rcases hi with h | ⟨e, _, he⟩
  · subst h; exact ⟨rfl, rfl⟩
  · rw [← he]
    split_ifs with hc
    · exact ⟨rfl, rfl⟩
    · have heq := not_not.mp hc
      exact ⟨congrArg Prod.fst heq, congrArg Prod.snd heq⟩

/-- C6: frame ordering is numeric by the first digit run in each filename,
not lexicographic: the returned frames are pairwise ascending in the
numeric key, and are a permutation of the discovered PNG files; the files
`frame-10.png, frame-2.png, frame-1.png` load in the order
`frame-1, frame-2, frame-10`. -/
theorem frames_sorted_numerically (entries : List SrcImage) (imgs : List Img)
    (h : process_images (some entries) = some imgs) :
    imgs.Pairwise (fun a b => numKey a.srcName ≤ numKey b.srcName) ∧
    (imgs.map (fun i => i.srcName)).Perm
      ((entries.filter (fun e => endsWithPng e.name)).map (fun e => e.name)) ∧
    ((process_images (some [⟨"frame-10.png", 32, 32⟩, ⟨"frame-2.png", 32, 32⟩,
        ⟨"frame-1.png", 32, 32⟩])).getD []).map (fun i => i.srcName) =
      ["frame-1.png", "frame-2.png", "frame-10.png"] := by
  unfold process_images at h
  dsimp only at h
  split_ifs at h with h1 h2
  have himgs := Option.some.inj h
  subst himgs
  set files := entries.filter (fun e => endsWithPng e.name) with hfiles
  have hnames := loadLoop_map_srcName (List.insertionSort byNumKey files)
  refine ⟨?_, ?_, by rfl⟩
  · have hsorted := List.sorted_insertionSort byNumKey files
    have hp : ((List.insertionSort byNumKey files).map
        (fun e => e.name)).Pairwise (fun a b => numKey a ≤ numKey b) := by
      rw [List.pairwise_map]
      exact hsorted
    rw [← hnames, List.pairwise_map] at hp
    exact hp
  · rw [hnames]
    exact (List.perm_insertionSort byNumKey files).map _

/-- Witness for C6: the three-file scenario from the claim. -/
theorem frames_sorted_numerically_witness :
    ((process_images (some [⟨"frame-10.png", 32, 32⟩, ⟨"frame-2.png", 32, 32⟩,
        ⟨"frame-1.png", 32, 32⟩])).getD []).map (fun i => i.srcName) =
      ["frame-1.png", "frame-2.png", "frame-10.png"] :=
  (frames_sorted_numerically [⟨"frame-1.png", 32, 32⟩]
    [⟨"frame-1.png", 32, 32, "RGBA", false⟩] (by rfl)).2.2

/-- C7: after `process_images` succeeds every frame has the pixel
dimensions of the first returned frame (the first frame in numeric order
fixes the canonical size) and every frame is in RGBA mode; a 100×100
first frame and a 120×100 second frame both come out 100×100. -/
theorem frames_normalized (entries : List SrcImage) (imgs : List Img)
    (h : process_images (some entries) = some imgs) :
    (∀ i ∈ imgs, i.mode = "RGBA") ∧
    (∀ hne : imgs ≠ [], ∀ i ∈ imgs,
      i.width = (imgs.head hne).width ∧ i.height = (imgs.head hne).height) ∧
    ((process_images (some [⟨"frame-1.png", 100, 100⟩,
        ⟨"frame-2.png", 120, 100⟩])).getD []).map
        (fun i => (i.width, i.height, i.mode)) =
      [(100, 100, "RGBA"), (100, 100, "RGBA")] := by
  unfold process_images at h
  dsimp only at h
  split_ifs at h with h1 h2
  have himgs := Option.some.inj h
  subst himgs
  refine ⟨loadLoop_mode _, ?_, by rfl⟩
  rcases hs : List.insertionSort byNumKey
      (entries.filter (fun e => endsWithPng e.name)) with _ | ⟨f, rest⟩
  · intro hne
    exact absurd rfl hne
  · intro hne i hi
    have hd := loadLoop_dims f rest i hi
    have hhead : (loadLoop (f :: rest)).head hne = convertRGBA f := by
      simp [loadLoop]
    rw [hhead]
    exact hd

/-- Witness for C7: the 100×100 / 120×100 scenario from the claim. -/
theorem frames_normalized_witness :
    ((process_images (some [⟨"frame-1.png", 100, 100⟩,
        ⟨"frame-2.png", 120, 100⟩])).getD []).map
        (fun i => (i.width, i.height, i.mode)) =
      [(100, 100, "RGBA"), (100, 100, "RGBA")] :=
  (frames_normalized [⟨"frame-1.png", 100, 100⟩, ⟨"frame-2.png", 120, 100⟩]
    [⟨"frame-1.png", 100, 100, "RGBA", false⟩,
     ⟨"frame-2.png", 100, 100, "RGBA", true⟩] (by rfl)).2.2

/-- C8: every discovery or decode failure — missing input directory, no
`.png` files, or a PNG filename with no digits — makes `process_images`
return the failure value `None` (and a success is never a partial list:
it has one frame per discovered PNG file); on `None`, `main` aborts
before creating any output directory. -/
theorem loader_failures_abort (entries : List SrcImage) :
    process_images none = none ∧
    ((entries.filter (fun e => endsWithPng e.name)).isEmpty = true →
      process_images (some entries) = none) ∧
    ((∃ e ∈ entries.filter (fun e => endsWithPng e.name),
        firstDigitRun e.name = none) →
      process_images (some entries) = none) ∧
    (∀ d : Option (List SrcImage), process_images d = none →
      main_run d = RunOutcome.abortBeforeOutput) ∧
    (∀ imgs : List Img, process_images (some entries) = some imgs →
      imgs.length = (entries.filter (fun e => endsWithPng e.name)).length) := by
  refine ⟨rfl, ?_, ?_, ?_, ?_⟩
  · intro hemp
    simp [process_images, hemp]
  · rintro ⟨e, hmem, hnone⟩
    have hall : ¬ ((entries.filter (fun x => endsWithPng x.name)).all
        (fun x => (firstDigitRun x.name).isSome)) = true := by
      intro hall
      have := List.all_eq_true.mp hall e hmem
      rw [hnone] at this
      exact Bool.noConfusion this
    unfold process_images
    dsimp only
    split_ifs <;> rfl
  · intro d hd
    unfold main_run
    rw [hd]
  · intro imgs h
    unfold process_images at h
    dsimp only at h
    split_ifs at h with h1 h2
    have himgs := Option.some.inj h
    subst himgs
    rw [loadLoop_length, List.length_insertionSort]

/-- Witness for C8: a directory with only `notes.txt` has no PNGs, a
directory whose one PNG is `frame.png` has no digits in the filename, and
either way (as with a missing directory) `main` stops before creating
output. -/
theorem loader_failures_abort_witness :
    process_images (some [⟨"notes.txt", 4, 4⟩]) = none ∧
    process_images (some [⟨"frame.png", 4, 4⟩]) = none ∧
    main_run none = RunOutcome.abortBeforeOutput ∧
    ([(⟨"frame-1.png", 32, 32, "RGBA", false⟩ : Img)] : List Img).length =
      (([⟨"frame-1.png", 32, 32⟩] : List SrcImage).filter
        (fun e => endsWithPng e.name)).length :=
  ⟨(loader_failures_abort [⟨"notes.txt", 4, 4⟩]).2.1 (by decide),
   (loader_failures_abort [⟨"frame.png", 4, 4⟩]).2.2.1
     ⟨⟨"frame.png", 4, 4⟩, by decide, by decide⟩,
   (loader_failures_abort []).2.2.2.1 none rfl,
   (loader_failures_abort [⟨"frame-1.png", 32, 32⟩]).2.2.2.2
     [⟨"frame-1.png", 32, 32, "RGBA", false⟩] (by rfl)⟩
